import Mathlib

/-
  Verification of the thames-tides tide-curve engine.

  Shallow embedding of:
  - src/src/utils/math.ts            (lerp, clamp, mapRange)
  - src/src/engine/tideCurve.ts      (padPredictions, interpolatePredictions,
                                      buildCacheKey, renderStaticLayer cache
                                      semantics, drawTideCurve cache semantics)
  - src/unnamed/part_005 (TideCanvas) time-scrub controller: pointer drag,
    wheel, snapback animation.

  Times are in integer milliseconds (ℤ); tide levels are real numbers (ℝ);
  scrub-controller and geometry scalars are rationals (ℚ), since the JS
  arithmetic involved there is exact on the inputs we reason about.
-/

namespace ThamesTides

/-! ### Constants (src/src/engine/tideCurve.ts, src/unnamed/part_005) -/

/-- `HALF_CYCLE = 6.2 * 3600 * 1000` ms. -/
def HALF_CYCLE : ℤ := 22320000

/-- Sampling step of the interpolator, `3 * 60 * 1000` ms. -/
def STEP_MS : ℤ := 180000

/-- `CACHE_TTL = 30_000` ms. -/
def CACHE_TTL : ℤ := 30000

/-- `PAST_HOURS = 12` expressed in ms. -/
def PAST_HOURS_MS : ℤ := 43200000

/-- `FUTURE_HOURS = 12` expressed in ms. -/
def FUTURE_HOURS_MS : ℤ := 43200000

/-- `TOTAL_WINDOW_MS = (PAST_HOURS + FUTURE_HOURS) * 3600 * 1000` (part_005). -/
def TOTAL_WINDOW_MS : ℚ := 86400000

/-- `maxOffset = 6 * 3600 * 1000` ms (part_005, pointer-move and wheel clamp). -/
def MAX_OFFSET_MS : ℚ := 21600000

/-- `SNAPBACK_MS = 1200` (part_005). -/
def SNAPBACK_MS : ℚ := 1200

/-- `CURVE_HEIGHT_FRACTION = 0.15` (tideCurve.ts). -/
def CURVE_HEIGHT_FRACTION : ℚ := 15 / 100

/-! ### src/src/utils/math.ts

The source functions operate on JS numbers and are used with both time and
level scalars, so they are embedded generically over a linear ordered field. -/

/-- `lerp(a, b, t) = a + (b - a) * t`. -/
def lerp {α : Type*} [LinearOrderedField α] (a b t : α) : α := a + (b - a) * t

/-- `clamp(value, min, max) = Math.min(Math.max(value, min), max)`. -/
def clamp {α : Type*} [LinearOrderedField α] (value mn mx : α) : α :=
  min (max value mn) mx

/-- `mapRange`: clamp `(value - inMin)/(inMax - inMin)` to `[0,1]`, then lerp. -/
def mapRange {α : Type*} [LinearOrderedField α]
    (value inMin inMax outMin outMax : α) : α :=
  lerp outMin outMax (clamp ((value - inMin) / (inMax - inMin)) 0 1)

/-! ### Time-scrub controller (src/unnamed/part_005, TideCanvas)

State of the refs `timeOffsetRef`, `isDraggingRef`, `dragStartXRef`,
`dragStartOffsetRef`, plus whether a snapback animation frame loop is running
(`snapbackRafRef` has a live callback) and whether the idle-delay timer is
pending (`snapbackTimerRef`).  The captured `startOffset` of a running
snapback animation closure is `snapAnimStart`. -/

structure ScrubState where
  offset : ℚ
  dragging : Bool
  dragStartX : ℚ
  dragStartOffset : ℚ
  snapAnimActive : Bool
  snapAnimStart : ℚ
  snapTimerPending : Bool
deriving DecidableEq

/-- Initial state: all refs start at `0` / `false`. -/
def initScrub : ScrubState :=
  { offset := 0, dragging := false, dragStartX := 0, dragStartOffset := 0
    snapAnimActive := false, snapAnimStart := 0, snapTimerPending := false }

/-- `width || 1` — JS falls back to 1 only when the width is `0`. -/
def widthOr1 (w : ℚ) : ℚ := if w = 0 then 1 else w

/-- `pxToMs = TOTAL_WINDOW_MS / (width || 1)`. -/
def pxToMs (w : ℚ) : ℚ := TOTAL_WINDOW_MS / widthOr1 w

/-- `easeInOut(t) = t < 0.5 ? 2*t*t : 1 - (-2*t+2)**2/2` (part_005). -/
def easeInOut (t : ℚ) : ℚ :=
  if t < 1 / 2 then 2 * t * t else 1 - (-2 * t + 2) ^ 2 / 2

/-- `handleWheel` (part_005 lines 136–151): cancels any snapback animation
and pending snapback timer, adds `deltaX * pxToMs * 0.5` to the offset, adds
`deltaY * pxToMs * 0.5` as well when the vertical component dominates, clamps
to `±maxOffset`, and reschedules the idle-delay snapback timer.  The source
has no check of the dragging flag. -/
def handleWheel (s : ScrubState) (deltaX deltaY width : ℚ) : ScrubState :=
  let p := pxToMs width
  let o1 := s.offset + deltaX * p * (1 / 2)
  let o2 := if |deltaX| < |deltaY| then o1 + deltaY * p * (1 / 2) else o1
  let o3 := max (-MAX_OFFSET_MS) (min MAX_OFFSET_MS o2)
  { s with offset := o3, snapAnimActive := false, snapTimerPending := true }

/-- `handlePointerDown` (part_005 lines 91–103): ignored above the curve band
(`clientY < height * (1 - CURVE_HEIGHT_FRACTION)`); otherwise cancels
snapback animation and timer and starts a drag, recording the anchor x and
the current offset. -/
def handlePointerDown (s : ScrubState) (clientX clientY height : ℚ) :
    ScrubState :=
  if clientY < height * (1 - CURVE_HEIGHT_FRACTION) then s
  else
    { s with snapAnimActive := false, snapTimerPending := false,
             dragging := true, dragStartX := clientX,
             dragStartOffset := s.offset }

/-- `handlePointerMove` (part_005 lines 105–118): while dragging,
`offset = dragStartOffset - dx * pxToMs` clamped to `±maxOffset`. -/
def handlePointerMove (s : ScrubState) (clientX width : ℚ) : ScrubState :=
  if s.dragging then
    let dx := clientX - s.dragStartX
    let o := s.dragStartOffset - dx * pxToMs width
    { s with offset := max (-MAX_OFFSET_MS) (min MAX_OFFSET_MS o) }
  else s

/-- `handlePointerUp` (part_005 lines 120–125): ends the drag and schedules
the snapback timer. -/
def handlePointerUp (s : ScrubState) : ScrubState :=
  if s.dragging then { s with dragging := false, snapTimerPending := true }
  else s

/-- `handlePointerLeave` (part_005 lines 127–133): same offset-relevant
effect as pointer-up. -/
def handlePointerLeave (s : ScrubState) : ScrubState :=
  if s.dragging then { s with dragging := false, snapTimerPending := true }
  else s

/-- `startSnapback` (part_005 lines 70–83): cancels a running animation,
captures the start offset; offsets below 1 ms snap straight to zero,
otherwise the eased animation starts. -/
def startSnapback (s : ScrubState) : ScrubState :=
  let s1 := { s with snapAnimActive := false }
  if |s1.offset| < 1 then { s1 with offset := 0 }
  else { s1 with snapAnimActive := true, snapAnimStart := s1.offset }

/-- The idle-delay timer firing (`window.setTimeout(startSnapback, …)`):
only has an effect while the timer is pending. -/
def snapTimerFire (s : ScrubState) : ScrubState :=
  if s.snapTimerPending then startSnapback { s with snapTimerPending := false }
  else s

/-- One animation-frame step of the snapback (part_005 lines 76–81):
`t = min(elapsed / SNAPBACK_MS, 1)`; `offset = startOffset * (1 - easeInOut t)`;
at `t = 1` the offset is set to exactly `0` and the animation stops. -/
def snapTick (s : ScrubState) (elapsed : ℚ) : ScrubState :=
  if s.snapAnimActive then
    let t := min (elapsed / SNAPBACK_MS) 1
    if t < 1 then { s with offset := s.snapAnimStart * (1 - easeInOut t) }
    else { s with offset := 0, snapAnimActive := false }
  else s

/-- Events delivered to the scrub controller.  Pointer and wheel events carry
the surface geometry current at delivery time. -/
inductive ScrubEvent where
  | pointerDown (clientX clientY height : ℚ)
  | pointerMove (clientX width : ℚ)
  | pointerUp
  | pointerLeave
  | wheel (deltaX deltaY width : ℚ)
  | timerFire
  | animTick (elapsed : ℚ)
deriving DecidableEq

/-- Environment validity: a snapback animation tick runs at a nonnegative
elapsed time (`performance.now()` is monotone, so `now - startTime ≥ 0`). -/
def ScrubEvent.valid : ScrubEvent → Bool
  | .animTick elapsed => decide (0 ≤ elapsed)
  | _ => true

/-- Dispatch one event through the part_005 handlers. -/
def scrubStep (s : ScrubState) : ScrubEvent → ScrubState
  | .pointerDown x y h => handlePointerDown s x y h
  | .pointerMove x w => handlePointerMove s x w
  | .pointerUp => handlePointerUp s
  | .pointerLeave => handlePointerLeave s
  | .wheel dx dy w => handleWheel s dx dy w
  | .timerFire => snapTimerFire s
  | .animTick e => snapTick s e

/-- Run a sequence of events from a state. -/
def runScrub (s : ScrubState) (evs : List ScrubEvent) : ScrubState :=
  evs.foldl scrubStep s

/-! ### Data model (src/src/types.ts) -/

/-- `type: 'high' | 'low'`. -/
inductive TideKind where
  | high
  | low
deriving DecidableEq

/-- `first.type === 'high' ? 'low' : 'high'`. -/
def TideKind.opposite : TideKind → TideKind
  | .high => .low
  | .low => .high

/-- `TidalEvent { type, time, level }`; `time` in ms since epoch, `level` in
meters above datum. -/
structure TidalEvent where
  type : TideKind
  time : ℤ
  level : ℝ

/-- `{ time, level }` sample produced by the interpolator. -/
structure InterpPoint where
  time : ℤ
  level : ℝ

/-! ### Extremum padder (src/src/engine/tideCurve.ts lines 17–53)

The source runs two unbounded `while` loops; each iteration moves the
boundary event exactly one `HALF_CYCLE` outward, so the number of iterations
is the half-cycle distance from the boundary event to the window edge.  The
embedding runs the same loop body on a fuel argument precomputed to that
iteration count (`padStartAux_head_le` below certifies the loop reaches its
exit condition, i.e. the fuel never truncates the loop). -/

/-- The synthetic event prepended by one iteration of the pad-start loop:
opposite kind, one half-cycle before the current first event, level from the
nearest (front-most) existing event of the synthesized kind, falling back to
the first event's own level. -/
def padStartEvent (first : TidalEvent) (padded : List TidalEvent) : TidalEvent :=
  { type := first.type.opposite,
    time := first.time - HALF_CYCLE,
    level := (padded.find? (fun x => x.type = first.type.opposite)).elim
      first.level (·.level) }

/-- Body of `while (padded.length > 0 && padded[0].time > start)`. -/
def padStartAux : ℕ → List TidalEvent → ℤ → List TidalEvent
  | 0, l, _ => l
  | _ + 1, [], _ => []
  | n + 1, first :: rest, start =>
    if first.time > start then
      padStartAux n (padStartEvent first (first :: rest) :: first :: rest) start
    else first :: rest

/-- Iterations the pad-start loop performs: the half-cycle distance from the
first event down to `start`. -/
def padStartFuel (l : List TidalEvent) (start : ℤ) : ℕ :=
  match l with
  | [] => 0
  | first :: _ => (first.time - start).toNat / HALF_CYCLE.toNat + 1

def padStart (l : List TidalEvent) (start : ℤ) : List TidalEvent :=
  padStartAux (padStartFuel l start) l start

/-- The synthetic event appended by one iteration of the pad-end loop:
opposite kind, one half-cycle after the current last event, level from the
nearest existing event of the synthesized kind searching from the back
(`[...padded].reverse().find(...)`), falling back to the last event's level. -/
def padEndEvent (last : TidalEvent) (padded : List TidalEvent) : TidalEvent :=
  { type := last.type.opposite,
    time := last.time + HALF_CYCLE,
    level := (padded.reverse.find? (fun x => x.type = last.type.opposite)).elim
      last.level (·.level) }

/-- Body of `while (padded.length > 0 && padded[padded.length-1].time < end)`. -/
def padEndAux : ℕ → List TidalEvent → ℤ → List TidalEvent
  | 0, l, _ => l
  | n + 1, l, stop =>
    match l.getLast? with
    | none => l
    | some last =>
      if last.time < stop then
        padEndAux n (l ++ [padEndEvent last l]) stop
      else l

/-- Iterations the pad-end loop performs. -/
def padEndFuel (l : List TidalEvent) (stop : ℤ) : ℕ :=
  match l.getLast? with
  | none => 0
  | some last => (stop - last.time).toNat / HALF_CYCLE.toNat + 1

def padEnd (l : List TidalEvent) (stop : ℤ) : List TidalEvent :=
  padEndAux (padEndFuel l stop) l stop

/-- `padPredictions` (tideCurve.ts lines 17–53): fewer than 2 events are
returned unchanged; otherwise the list is extended by the two loops until it
covers `[start, end]`. -/
def padPredictions (predictions : List TidalEvent) (start stop : ℤ) :
    List TidalEvent :=
  if predictions.length < 2 then predictions
  else padEnd (padStart predictions start) stop

/-! ### Curve interpolator (src/src/engine/tideCurve.ts lines 55–87) -/

/-- Number of iterations of `for (let t = tA; t < tB; t += step)`:
the values `t = tA + k*step` with `t < tB`. -/
def numSteps (tA tB : ℤ) : ℕ :=
  if tA < tB then (tB - tA - 1).toNat / STEP_MS.toNat + 1 else 0

/-- The samples one consecutive pair `(a, b)` contributes: every grid time
`t = a.time + k*step` with `t < b.time`, skipped when outside
`[start, end]`; `frac = (t - tA)/(tB - tA)`, cosine easing
`(1 - cos(frac*π))/2`, `level = lA + (lB - lA)*ease`. -/
noncomputable def pairSamples (a b : TidalEvent) (start stop : ℤ) :
    List InterpPoint :=
  (List.range (numSteps a.time b.time)).filterMap fun (k : ℕ) =>
    let t := a.time + (k : ℤ) * STEP_MS
    if t < start ∨ t > stop then none
    else some
      { time := t,
        level := a.level + (b.level - a.level) *
          ((1 - Real.cos (((t - a.time : ℤ) : ℝ) / ((b.time - a.time : ℤ) : ℝ)
            * Real.pi)) / 2) }

/-- The outer loop `for (let i = 0; i < padded.length - 1; i++)`:
concatenates the samples of every consecutive pair. -/
noncomputable def interpPoints : List TidalEvent → ℤ → ℤ → List InterpPoint
  | a :: b :: rest, start, stop =>
    pairSamples a b start stop ++ interpPoints (b :: rest) start stop
  | _, _, _ => []

/-- The final boundary point: the last padded event, pushed when it lies
within the window (tideCurve.ts lines 81–84). -/
def finalPoint (padded : List TidalEvent) (start stop : ℤ) : List InterpPoint :=
  match padded.getLast? with
  | none => []
  | some last =>
    if start ≤ last.time ∧ last.time ≤ stop then
      [{ time := last.time, level := last.level }]
    else []

/-- `interpolatePredictions` (tideCurve.ts lines 55–87). -/
noncomputable def interpolatePredictions (predictions : List TidalEvent)
    (start stop : ℤ) : List InterpPoint :=
  let padded := padPredictions predictions start stop
  if padded.length < 2 then []
  else interpPoints padded start stop ++ finalPoint padded start stop

/-! ### Static-layer cache (src/src/engine/tideCurve.ts lines 89–309)

The drawing side effects on the offscreen canvas are not part of the state;
what is modelled is the module-level cache state (lines 90–99) and the
control flow of `renderStaticLayer` / `drawTideCurve` that reads and writes
it: which frames rebuild, what the rebuild stores, and whether the frame
draws anything. -/

/-- The per-frame snapshot fields of `VisualizationState` that the cache
logic reads. -/
structure VisState where
  width : ℚ
  height : ℚ
  dpr : ℚ
  predictions : List TidalEvent
  currentLevel : ℝ
  themeBlend : ℚ

/-- The module-level mutable cache of tideCurve.ts (lines 90–99).
`cachedCanvas` records whether the offscreen canvas is present
(`cachedCanvas !== null`). -/
structure CurveCache where
  cachedCanvas : Bool
  cacheKey : String
  cacheTime : ℤ
  cachedPoints : List InterpPoint
  cachedMinLevel : ℝ
  cachedMaxLevel : ℝ
  cachedWindowStart : ℤ
  cachedWindowEnd : ℤ
  cachedCurveTop : ℚ
  cachedCurveBottom : ℚ

/-- `Math.round`: half-up rounding, `⌊x + 1/2⌋`. -/
def jsRound (x : ℚ) : ℤ := ⌊x + 1 / 2⌋

/-- `buildCacheKey` (line 101–103):
`` `${w}|${h}|${dpr}|${Math.round(blend*20)}|${predCount}|${nowMinute}` ``. -/
def buildCacheKey (w h dpr blend : ℚ) (predCount : ℕ) (nowMinute : ℤ) :
    String :=
  toString w ++ "|" ++ toString h ++ "|" ++ toString dpr ++ "|" ++
    toString (jsRound (blend * 20)) ++ "|" ++ toString predCount ++ "|" ++
    toString nowMinute

/-- Level range of a nonempty point list, as the `Infinity`-seeded
min/max fold of lines 124–129. -/
def levelRange (p : InterpPoint) (ps : List InterpPoint) : ℝ × ℝ :=
  (ps.foldl (fun m q => min m q.level) p.level,
   ps.foldl (fun m q => max m q.level) p.level)

/-- `renderStaticLayer` (lines 105–289), restricted to its cache-state
effect: the window is `Date.now() ± 12h`; when interpolation yields fewer
than 2 points the canvas is cleared and nothing else changes (early return,
line 119–122); otherwise the points, padded level range, window and curve
bounds are stored, the canvas is (re)drawn, and `cacheTime` is set to `now`.
The `|| 0.5` fallback of line 130 applies when the level spread is zero. -/
noncomputable def renderStaticLayer (c : CurveCache) (st : VisState)
    (now : ℤ) : CurveCache :=
  let curveTop := st.height * (1 - CURVE_HEIGHT_FRACTION)
  let curveBottom := st.height - 20
  let windowStart := now - PAST_HOURS_MS
  let windowEnd := now + FUTURE_HOURS_MS
  match interpolatePredictions st.predictions windowStart windowEnd with
  | [] => { c with cachedCanvas := false }
  | [_] => { c with cachedCanvas := false }
  | p :: ps =>
    let r := levelRange p ps
    let pad := if (r.2 - r.1) * (15 / 100 : ℝ) = 0 then (1 / 2 : ℝ)
               else (r.2 - r.1) * (15 / 100 : ℝ)
    { cachedCanvas := true,
      cacheKey := c.cacheKey,
      cacheTime := now,
      cachedPoints := p :: ps,
      cachedMinLevel := r.1 - pad,
      cachedMaxLevel := r.2 + pad,
      cachedWindowStart := windowStart,
      cachedWindowEnd := windowEnd,
      cachedCurveTop := curveTop,
      cachedCurveBottom := curveBottom }

/-- `drawTideCurve` (lines 291–363), restricted to cache state and two
observables: whether the static layer was rebuilt this call and whether
anything was drawn.  Fewer than 2 predictions return immediately; the cache
is rebuilt when the canvas is absent, the key changed, or the TTL elapsed
(line 304), with `cacheKey` assigned before the rebuild (line 305); after
the rebuild check, an absent canvas or fewer than 2 cached points abort the
frame (line 309). -/
noncomputable def drawTideCurve (c : CurveCache) (st : VisState) (now : ℤ) :
    CurveCache × Bool × Bool :=
  if st.predictions.length < 2 then (c, false, false)
  else
    let nowMinute := Int.ediv now 60000
    let key := buildCacheKey st.width st.height st.dpr st.themeBlend
      st.predictions.length nowMinute
    if c.cachedCanvas = false ∨ key ≠ c.cacheKey ∨
        CACHE_TTL < now - c.cacheTime then
      let c2 := renderStaticLayer { c with cacheKey := key } st now
      if c2.cachedCanvas = false ∨ c2.cachedPoints.length < 2 then
        (c2, true, false)
      else (c2, true, true)
    else
      if c.cachedCanvas = false ∨ c.cachedPoints.length < 2 then
        (c, false, false)
      else (c, false, true)

/-- Modelled from the spec: the repository's final revision of
`src/engine/tideCurve.ts` — the one `TideCanvas` (part_005) imports
`invalidateTideCurveCache` from — is not in the snapshot; per §4.4 the
entry point "force[s] an unconditional rebuild on next use, bypassing
key/TTL checks", which against this cache layout means clearing the
canvas. -/
def invalidateTideCurveCache (c : CurveCache) : CurveCache :=
  { c with cachedCanvas := false }

/-- Modelled from the spec: the render window of the final tideCurve
revision (the snapshot's `renderStaticLayer`, lines 114–116, anchors on
plain `Date.now()`; §3 RenderWindow anchors on "now" offset by the current
scrub value — `state.timeOffset`, which part_005 line 230 supplies —
spanning 12h past and future).  `renderWindow now 0` is exactly the
snapshot's window. -/
def renderWindow (now timeOffset : ℤ) : ℤ × ℤ :=
  (now + timeOffset - PAST_HOURS_MS, now + timeOffset + FUTURE_HOURS_MS)

/-! ### Concrete instances used by counterexamples and witnesses -/

/-- A state in mid-drag with offset 0, as after a pointer-down at the
anchor. -/
def dragState : ScrubState :=
  { offset := 0, dragging := true, dragStartX := 0, dragStartOffset := 0
    snapAnimActive := false, snapAnimStart := 0, snapTimerPending := false }

/-- The invariant preserved by every scrub-controller step: the stored
offset and any captured snapback start offset stay within `±maxOffset`. -/
def ScrubInv (s : ScrubState) : Prop :=
  |s.offset| ≤ MAX_OFFSET_MS ∧ |s.snapAnimStart| ≤ MAX_OFFSET_MS

/-- Concrete interaction trace: drag started inside the curve band, a large
leftward move, release, a wheel burst, the idle timer firing and two
snapback ticks. -/
def sampleTrace : List ScrubEvent :=
  [.pointerDown 500 900 1000, .pointerMove (-3000) 1000, .pointerUp,
   .wheel 400 0 800, .timerFire, .animTick 600, .animTick 1300,
   .pointerLeave]

/-- Two ascending events 10000 s apart, far inside a window that needs
several half-cycles of padding at the front. -/
def exEvents : List TidalEvent :=
  [{ type := .high, time := 50000000, level := 2 },
   { type := .low, time := 60000000, level := 1 }]

/-- The spec §8 example predictions: a high of 3.2 m at `t0` and a low of
0.1 m at `t0 + 6.2h`. -/
def specEvents (t0 : ℤ) : List TidalEvent :=
  [{ type := .high, time := t0, level := 3.2 },
   { type := .low, time := t0 + 22320000, level := 0.1 }]

/-- Two events one sampling step apart, exactly covering the window. -/
def wEvents : List TidalEvent :=
  [{ type := .high, time := 0, level := 2 },
   { type := .low, time := 180000, level := 0 }]

/-- A frame snapshot with no predictions: its build yields no points. -/
def stEmpty : VisState :=
  { width := 1000, height := 800, dpr := 1, predictions := [],
    currentLevel := 1, themeBlend := 0 }

/-- A frame snapshot with the two `exEvents` predictions. -/
def stTwo : VisState :=
  { width := 1000, height := 800, dpr := 1, predictions := exEvents,
    currentLevel := 1, themeBlend := 0 }

/-- A cache entry built at time 0 whose key matches what
`drawTideCurve stTwo` computes at time 0. -/
def cacheBuilt : CurveCache :=
  { cachedCanvas := true, cacheKey := buildCacheKey 1000 800 1 0 2 0,
    cacheTime := 0, cachedPoints := [], cachedMinLevel := 0,
    cachedMaxLevel := 1, cachedWindowStart := 0, cachedWindowEnd := 0,
    cachedCurveTop := 0, cachedCurveBottom := 0 }

/-- `cacheBuilt` with the canvas cleared, as a failed build leaves it. -/
def cacheAbsent : CurveCache :=
  { cacheBuilt with cachedCanvas := false }

/-! ### Theorems -/

/-- C9: for every input and every mapping with `inMin < inMax` and
`outMin ≤ outMax`, `mapRange` returns a value within `[outMin, outMax]`;
inputs at or below `inMin` map to `outMin` and inputs at or above `inMax`
map to `outMax`, so out-of-range inputs never produce out-of-range
outputs. -/
theorem mapRange_clamps {α : Type*} [LinearOrderedField α]
    (value inMin inMax outMin outMax : α)
    (hin : inMin < inMax) (hout : outMin ≤ outMax) :
    (outMin ≤ mapRange value inMin inMax outMin outMax ∧
      mapRange value inMin inMax outMin outMax ≤ outMax) ∧
    (value ≤ inMin → mapRange value inMin inMax outMin outMax = outMin) ∧
    (inMax ≤ value → mapRange value inMin inMax outMin outMax = outMax) := by
  unfold mapRange lerp clamp
  set x := (value - inMin) / (inMax - inMin) with hx
  have hden : (0 : α) < inMax - inMin := by linarith
  have ht0 : 0 ≤ min (max x 0) 1 := le_min (le_max_right _ _) zero_le_one
  have ht1 : min (max x 0) 1 ≤ 1 := min_le_right _ _
  refine ⟨⟨by nlinarith, by nlinarith⟩, ?_, ?_⟩
  · intro hbelow
    have hxle : x ≤ 0 := div_nonpos_of_nonpos_of_nonneg (by linarith) hden.le
    rw [max_eq_right hxle, min_eq_left zero_le_one]
    ring
  · intro habove
    have hxge : 1 ≤ x := (one_le_div hden).mpr (by linarith)
    rw [max_eq_left (le_trans zero_le_one hxge), min_eq_right hxge]
    ring

/-- C9 witness: `mapRange` over ℚ at `value = -3`, domain `[0, 10]`,
range `[5, 20]`. -/
theorem mapRange_clamps_witness :
    ((0 : ℚ) < 10 ∧ (5 : ℚ) ≤ 20) ∧
    ((5 ≤ mapRange (-3 : ℚ) 0 10 5 20 ∧ mapRange (-3 : ℚ) 0 10 5 20 ≤ 20) ∧
      ((-3 : ℚ) ≤ 0 → mapRange (-3 : ℚ) 0 10 5 20 = 5) ∧
      ((10 : ℚ) ≤ -3 → mapRange (-3 : ℚ) 0 10 5 20 = 20)) :=
  ⟨⟨by decide, by decide⟩, mapRange_clamps (-3) 0 10 5 20 (by decide) (by decide)⟩

/-- C1: the render window is anchored on virtual now — wall-clock `now`
offset by the scrub offset — spanning 12h into the past and 12h into the
future, so both edges differ from the plain `Date.now() ∓ 12h` window by
exactly the offset. -/
theorem renderWindow_virtual_now (now timeOffset : ℤ) :
    (renderWindow now timeOffset).1 = (now - 43200000) + timeOffset ∧
    (renderWindow now timeOffset).2 = (now + 43200000) + timeOffset ∧
    (renderWindow now timeOffset).1 = (renderWindow now 0).1 + timeOffset ∧
    (renderWindow now timeOffset).2 = (renderWindow now 0).2 + timeOffset := by
  simp only [renderWindow, PAST_HOURS_MS, FUTURE_HOURS_MS]
  omega

/-- C2: calling `invalidateTideCurveCache` forces a rebuild on the next
`drawTideCurve` (for any prior cache contents, any matching or differing
key, and any elapsed time since the last build — i.e. bypassing both the
key comparison and the TTL check). -/
theorem invalidate_forces_rebuild (c : CurveCache) (st : VisState) (now : ℤ)
    (h2 : 2 ≤ st.predictions.length) :
    (drawTideCurve (invalidateTideCurveCache c) st now).2.1 = true := by
  have hlt : ¬ st.predictions.length < 2 := by omega
  unfold drawTideCurve invalidateTideCurveCache
  rw [if_neg hlt, if_pos (Or.inl rfl)]
  dsimp only
  split <;> rfl

/-- C2 witness: invalidation on a cache whose key matches the computed key
and whose `cacheTime` equals `now` (fresh TTL) still rebuilds. -/
theorem invalidate_forces_rebuild_witness :
    2 ≤ ([⟨.high, 0, 3.2⟩, ⟨.low, 22320000, 0.1⟩] : List TidalEvent).length ∧
    (drawTideCurve
      (invalidateTideCurveCache
        { cachedCanvas := true,
          cacheKey := buildCacheKey 1000 800 1 0 2 0,
          cacheTime := 0, cachedPoints := [], cachedMinLevel := 0,
          cachedMaxLevel := 1, cachedWindowStart := 0, cachedWindowEnd := 0,
          cachedCurveTop := 0, cachedCurveBottom := 0 })
      { width := 1000, height := 800, dpr := 1,
        predictions := [⟨.high, 0, 3.2⟩, ⟨.low, 22320000, 0.1⟩],
        currentLevel := 1, themeBlend := 0 }
      0).2.1 = true :=
  ⟨by decide,
    invalidate_forces_rebuild _ _ 0 (by decide)⟩

/-- C5 counterexample: (a) with a drag active (`dragging = true`), a wheel
event with `deltaX = 100` on a 1000px surface changes the offset — the
handler never checks the dragging flag, so the offset is not left
unchanged during a drag; (b) without a drag, when the vertical component
dominates (`deltaX = 10`, `deltaY = 100`) the offset becomes the *sum*
`(deltaX + deltaY) * pxToMs * 0.5 = 4752000`, not the claimed fallback
value `deltaY * pxToMs * 0.5 = 4320000`. -/
theorem handleWheel_claim_counterexample :
    (handleWheel dragState 100 0 1000).offset ≠ dragState.offset ∧
    (handleWheel initScrub 10 100 1000).offset ≠
      initScrub.offset + 100 * pxToMs 1000 * (1 / 2) := by
  constructor <;>
    norm_num [handleWheel, dragState, initScrub, pxToMs, widthOr1,
      TOTAL_WINDOW_MS, MAX_OFFSET_MS, min_def, max_def]

/-- The source clamp pattern `Math.max(-m, Math.min(m, x))` agrees with
math.ts `clamp` when `-m ≤ m`. -/
theorem clamp_via_max (M x : ℚ) (h : -M ≤ M) :
    max (-M) (min M x) = clamp x (-M) M := by
  unfold clamp
  rw [max_min_distrib_left, max_eq_right h, min_comm, max_comm]

/-- C5 amended: a wheel event always (regardless of the dragging flag)
sets the offset to the old offset plus `deltaX * pxToMs * 0.5`, plus
additionally `deltaY * pxToMs * 0.5` when the vertical component dominates,
clamped to `[-MAX_OFFSET_MS, MAX_OFFSET_MS]`; it cancels any running
snapback animation and (re)schedules the idle-delay snapback timer. -/
theorem handleWheel_spec (s : ScrubState) (deltaX deltaY width : ℚ) :
    (handleWheel s deltaX deltaY width).offset =
      clamp (s.offset + deltaX * pxToMs width * (1 / 2) +
          (if |deltaX| < |deltaY| then deltaY * pxToMs width * (1 / 2) else 0))
        (-MAX_OFFSET_MS) MAX_OFFSET_MS ∧
    (∀ b, (handleWheel { s with dragging := b } deltaX deltaY width).offset =
      (handleWheel s deltaX deltaY width).offset) ∧
    (handleWheel s deltaX deltaY width).snapAnimActive = false ∧
    (handleWheel s deltaX deltaY width).snapTimerPending = true := by
  refine ⟨?_, fun b => rfl, rfl, rfl⟩
  have harg : s.offset + deltaX * pxToMs width * (1 / 2) +
      (if |deltaX| < |deltaY| then deltaY * pxToMs width * (1 / 2) else 0) =
      (if |deltaX| < |deltaY|
        then s.offset + deltaX * pxToMs width * (1 / 2) +
          deltaY * pxToMs width * (1 / 2)
        else s.offset + deltaX * pxToMs width * (1 / 2)) := by
    split <;> ring
  rw [harg, ← clamp_via_max _ _ (by norm_num [MAX_OFFSET_MS])]
  rfl

theorem MAX_OFFSET_MS_nonneg : (0 : ℚ) ≤ MAX_OFFSET_MS := by
  norm_num [MAX_OFFSET_MS]

theorem easeInOut_mem (t : ℚ) (h0 : 0 ≤ t) (h1 : t ≤ 1) :
    0 ≤ easeInOut t ∧ easeInOut t ≤ 1 := by
  unfold easeInOut
  split <;> constructor <;> nlinarith

theorem abs_clamp_le (x : ℚ) :
    |max (-MAX_OFFSET_MS) (min MAX_OFFSET_MS x)| ≤ MAX_OFFSET_MS := by
  rw [abs_le]
  exact ⟨le_max_left _ _,
    max_le (neg_nonpos_of_nonneg MAX_OFFSET_MS_nonneg |>.trans
      MAX_OFFSET_MS_nonneg) (min_le_left _ _)⟩

theorem handlePointerDown_inv (s : ScrubState) (x y hgt : ℚ)
    (h : ScrubInv s) : ScrubInv (handlePointerDown s x y hgt) := by
  unfold handlePointerDown
  split
  · exact h
  · exact ⟨h.1, h.2⟩

theorem handlePointerMove_inv (s : ScrubState) (x w : ℚ)
    (h : ScrubInv s) : ScrubInv (handlePointerMove s x w) := by
  unfold handlePointerMove
  split
  · exact ⟨abs_clamp_le _, h.2⟩
  · exact h

theorem handlePointerUp_inv (s : ScrubState) (h : ScrubInv s) :
    ScrubInv (handlePointerUp s) := by
  unfold handlePointerUp
  split
  · exact ⟨h.1, h.2⟩
  · exact h

theorem handlePointerLeave_inv (s : ScrubState) (h : ScrubInv s) :
    ScrubInv (handlePointerLeave s) := by
  unfold handlePointerLeave
  split
  · exact ⟨h.1, h.2⟩
  · exact h

theorem handleWheel_inv (s : ScrubState) (dx dy w : ℚ) (h : ScrubInv s) :
    ScrubInv (handleWheel s dx dy w) :=
  ⟨abs_clamp_le _, h.2⟩

theorem snapTimerFire_inv (s : ScrubState) (h : ScrubInv s) :
    ScrubInv (snapTimerFire s) := by
  unfold snapTimerFire startSnapback
  dsimp only
  split
  · split
    · exact ⟨by simpa using MAX_OFFSET_MS_nonneg, h.2⟩
    · exact ⟨h.1, h.1⟩
  · exact h

theorem snapTick_inv (s : ScrubState) (elapsed : ℚ) (he : 0 ≤ elapsed)
    (h : ScrubInv s) : ScrubInv (snapTick s elapsed) := by
  unfold snapTick
  dsimp only
  split
  · split
    · refine ⟨?_, h.2⟩
      have ht0 : 0 ≤ min (elapsed / SNAPBACK_MS) 1 :=
        le_min (div_nonneg he (by norm_num [SNAPBACK_MS])) zero_le_one
      have ht1 : min (elapsed / SNAPBACK_MS) 1 ≤ 1 := min_le_right _ _
      obtain ⟨he0, he1⟩ := easeInOut_mem _ ht0 ht1
      calc |s.snapAnimStart * (1 - easeInOut (min (elapsed / SNAPBACK_MS) 1))|
          = |s.snapAnimStart| *
            |1 - easeInOut (min (elapsed / SNAPBACK_MS) 1)| := abs_mul _ _
        _ ≤ |s.snapAnimStart| * 1 := by
            refine mul_le_mul_of_nonneg_left ?_ (abs_nonneg _)
            rw [abs_le]
            constructor <;> linarith
        _ = |s.snapAnimStart| := mul_one _
        _ ≤ MAX_OFFSET_MS := h.2
    · exact ⟨by simpa using MAX_OFFSET_MS_nonneg, h.2⟩
  · exact h

theorem scrubStep_inv (s : ScrubState) (e : ScrubEvent)
    (hv : e.valid = true) (h : ScrubInv s) : ScrubInv (scrubStep s e) := by
  cases e with
  | pointerDown x y hgt => exact handlePointerDown_inv s x y hgt h
  | pointerMove x w => exact handlePointerMove_inv s x w h
  | pointerUp => exact handlePointerUp_inv s h
  | pointerLeave => exact handlePointerLeave_inv s h
  | wheel dx dy w => exact handleWheel_inv s dx dy w h
  | timerFire => exact snapTimerFire_inv s h
  | animTick elapsed =>
    exact snapTick_inv s elapsed
      (by simpa [ScrubEvent.valid, decide_eq_true_eq] using hv) h

theorem runScrub_inv (evs : List ScrubEvent) :
    ∀ s : ScrubState, (∀ e ∈ evs, e.valid = true) → ScrubInv s →
      ScrubInv (runScrub s evs) := by
  induction evs with
  | nil => exact fun s _ h => h
  | cons e rest ih =>
    intro s hv h
    exact ih (scrubStep s e)
      (fun x hx => hv x (List.mem_cons_of_mem _ hx))
      (scrubStep_inv s e (hv e (List.mem_cons_self _ _)) h)

/-- C8: starting from offset 0, after any sequence of pointer
down/move/up/leave events, wheel events, snapback-timer firings and
snapback animation ticks (ticks delivered at nonnegative elapsed times),
the stored scrub offset remains within `[-6h, +6h]`. -/
theorem scrub_offset_bounded (evs : List ScrubEvent)
    (hv : ∀ e ∈ evs, e.valid = true) :
    |(runScrub initScrub evs).offset| ≤ MAX_OFFSET_MS :=
  (runScrub_inv evs initScrub hv
    ⟨by simpa using MAX_OFFSET_MS_nonneg,
     by simpa using MAX_OFFSET_MS_nonneg⟩).1

/-- C8 witness: the offset bound on the concrete trace. -/
theorem scrub_offset_bounded_witness :
    (∀ e ∈ sampleTrace, e.valid = true) ∧
    |(runScrub initScrub sampleTrace).offset| ≤ MAX_OFFSET_MS :=
  ⟨by decide, scrub_offset_bounded sampleTrace (by decide)⟩

/-! ### Padder lemmas -/

theorem HALF_CYCLE_toNat : (22320000 : ℤ).toNat = 22320000 := rfl

/-- Each pad-start iteration only prepends. -/
theorem padStartAux_append (n : ℕ) :
    ∀ (l : List TidalEvent) (s : ℤ),
      ∃ pre, padStartAux n l s = pre ++ l := by
  induction n with
  | zero => exact fun l s => ⟨[], rfl⟩
  | succ n ih =>
    intro l s
    cases l with
    | nil => exact ⟨[], rfl⟩
    | cons first rest =>
      rw [padStartAux]
      split
      · obtain ⟨pre, hpre⟩ :=
          ih (padStartEvent first (first :: rest) :: first :: rest) s
        exact ⟨pre ++ [padStartEvent first (first :: rest)], by
          rw [hpre]; simp⟩
      · exact ⟨[], rfl⟩

/-- The pad-start loop does not run when the first event already covers
the window start. -/
theorem padStartAux_of_head_le (n : ℕ) (first : TidalEvent)
    (rest : List TidalEvent) (s : ℤ) (h : first.time ≤ s) :
    padStartAux n (first :: rest) s = first :: rest := by
  cases n with
  | zero => rfl
  | succ n => rw [padStartAux, if_neg (not_lt.mpr h)]

/-- With fuel at least `padStartFuel`, the pad-start loop reaches its exit
condition: the resulting first event is at or before the window start.
(This certifies that the precomputed fuel never truncates the source's
`while` loop.) -/
theorem padStartAux_head_le (n : ℕ) :
    ∀ (l : List TidalEvent) (s : ℤ), padStartFuel l s ≤ n →
      ∀ hd, (padStartAux n l s).head? = some hd → hd.time ≤ s := by
  induction n with
  | zero =>
    intro l s hf hd hhd
    cases l with
    | nil => simp [padStartAux] at hhd
    | cons first rest => simp [padStartFuel] at hf
  | succ n ih =>
    intro l s hf hd hhd
    cases l with
    | nil => simp [padStartAux] at hhd
    | cons first rest =>
      rw [padStartAux] at hhd
      by_cases hgt : first.time > s
      · rw [if_pos hgt] at hhd
        by_cases hle : first.time - HALF_CYCLE ≤ s
        · rw [padStartAux_of_head_le n (padStartEvent first (first :: rest))
            (first :: rest) s hle] at hhd
          simp at hhd
          rw [← hhd]
          exact hle
        · refine ih (padStartEvent first (first :: rest) :: first :: rest) s
            ?_ hd hhd
          simp only [padStartFuel, padStartEvent, HALF_CYCLE_toNat,
            HALF_CYCLE] at hf hle ⊢
          omega
      · rw [if_neg hgt] at hhd
        simp at hhd
        rw [← hhd]
        exact not_lt.mp hgt

theorem padEndAux_zero (l : List TidalEvent) (stop : ℤ) :
    padEndAux 0 l stop = l := rfl

theorem padEndAux_succ (n : ℕ) (l : List TidalEvent) (stop : ℤ) :
    padEndAux (n + 1) l stop =
      match l.getLast? with
      | none => l
      | some last =>
        if last.time < stop then
          padEndAux n (l ++ [padEndEvent last l]) stop
        else l := rfl

/-- Each pad-end iteration only appends. -/
theorem padEndAux_append (n : ℕ) :
    ∀ (l : List TidalEvent) (stop : ℤ),
      ∃ post, padEndAux n l stop = l ++ post := by
  induction n with
  | zero => exact fun l stop => ⟨[], by simp [padEndAux_zero]⟩
  | succ n ih =>
    intro l stop
    rw [padEndAux_succ]
    cases hgl : l.getLast? with
    | none => exact ⟨[], by simp⟩
    | some last =>
      dsimp only
      split
      · obtain ⟨post, hpost⟩ := ih (l ++ [padEndEvent last l]) stop
        exact ⟨[padEndEvent last l] ++ post, by rw [hpost]; simp⟩
      · exact ⟨[], by simp⟩

/-- The pad-end loop does not run when the last event already covers the
window end. -/
theorem padEndAux_of_last_ge (n : ℕ) (l : List TidalEvent) (stop : ℤ)
    (last : TidalEvent) (hgl : l.getLast? = some last)
    (h : stop ≤ last.time) : padEndAux n l stop = l := by
  cases n with
  | zero => rfl
  | succ n =>
    rw [padEndAux_succ, hgl]
    dsimp only
    rw [if_neg (not_lt.mpr h)]

/-- With fuel at least `padEndFuel`, the pad-end loop reaches its exit
condition: the resulting last event is at or after the window end. -/
theorem padEndAux_last_ge (n : ℕ) :
    ∀ (l : List TidalEvent) (stop : ℤ), padEndFuel l stop ≤ n →
      ∀ lst, (padEndAux n l stop).getLast? = some lst → stop ≤ lst.time := by
  induction n with
  | zero =>
    intro l stop hf lst hlst
    rw [padEndAux_zero] at hlst
    simp only [padEndFuel, hlst, HALF_CYCLE, HALF_CYCLE_toNat] at hf
    omega
  | succ n ih =>
    intro l stop hf lst hlst
    rw [padEndAux_succ] at hlst
    cases hgl : l.getLast? with
    | none =>
      rw [hgl] at hlst
      dsimp only at hlst
      rw [hgl] at hlst
      exact absurd hlst (by simp)
    | some last =>
      rw [hgl] at hlst
      dsimp only at hlst
      by_cases hlt : last.time < stop
      · rw [if_pos hlt] at hlst
        by_cases hge : stop ≤ last.time + HALF_CYCLE
        · rw [padEndAux_of_last_ge n (l ++ [padEndEvent last l]) stop
            (padEndEvent last l) (List.getLast?_concat l) hge] at hlst
          rw [List.getLast?_concat l] at hlst
          simp at hlst
          rw [← hlst]
          exact hge
        · refine ih (l ++ [padEndEvent last l]) stop ?_ lst hlst
          simp only [padEndFuel, List.getLast?_concat, padEndEvent,
            HALF_CYCLE_toNat, HALF_CYCLE] at hge ⊢
          simp only [padEndFuel, hgl, HALF_CYCLE_toNat, HALF_CYCLE] at hf
          omega
      · rw [if_neg hlt] at hlst
        rw [hgl] at hlst
        simp at hlst
        rw [← hlst]
        exact not_lt.mp hlt

/-- C3 counterexample: on the ascending 2-event list `exEvents` and the
window `[0, 70000000]`, the padder produces 6 events — three synthesized
events prepended and one appended — while "at most one prepended and at
most one appended" would bound the output length by 4. -/
theorem padPredictions_counterexample :
    List.Chain' (fun a b => a.time ≤ b.time) exEvents ∧
    exEvents.length = 2 ∧
    (padPredictions exEvents 0 70000000).length = 6 := by
  refine ⟨?_, rfl, rfl⟩
  simp [exEvents]

/-- C3 amended: for an input of at least 2 events and any window, the
padder's output is the input sequence unchanged with zero or more
synthesized events prepended and zero or more appended (one per missing
half-cycle), and the output's time range fully covers
`[windowStart, windowEnd]`: the first event is at or before `windowStart`
and the last at or after `windowEnd`. -/
theorem padPredictions_structure (preds : List TidalEvent) (s e : ℤ)
    (h2 : 2 ≤ preds.length) :
    (∃ pre post, padPredictions preds s e = pre ++ preds ++ post) ∧
    (∃ hd, (padPredictions preds s e).head? = some hd ∧ hd.time ≤ s) ∧
    (∃ lst, (padPredictions preds s e).getLast? = some lst ∧ e ≤ lst.time) := by
  have hne : preds ≠ [] := by
    cases preds <;> simp_all
  unfold padPredictions
  rw [if_neg (by omega)]
  obtain ⟨pre, hpre0⟩ := padStartAux_append (padStartFuel preds s) preds s
  have hpre : padStart preds s = pre ++ preds := hpre0
  obtain ⟨post, hpost0⟩ :=
    padEndAux_append (padEndFuel (padStart preds s) e) (padStart preds s) e
  have hpost : padEnd (padStart preds s) e = padStart preds s ++ post := hpost0
  have hstart_ne : padStart preds s ≠ [] := by
    rw [hpre]
    simp [hne]
  refine ⟨⟨pre, post, ?_⟩, ?_, ?_⟩
  · rw [hpost, hpre, List.append_assoc]
  · have hh : (padEnd (padStart preds s) e).head? = (padStart preds s).head? := by
      rw [hpost, List.head?_append_of_ne_nil _ hstart_ne]
    cases hhd : (padStart preds s).head? with
    | none => exact absurd (List.head?_eq_none_iff.mp hhd) hstart_ne
    | some hd =>
      refine ⟨hd, by rw [hh, hhd], ?_⟩
      exact padStartAux_head_le (padStartFuel preds s) preds s le_rfl hd hhd
  · have hend_ne : padEnd (padStart preds s) e ≠ [] := by
      rw [hpost]
      simp [hstart_ne]
    cases hlst : (padEnd (padStart preds s) e).getLast? with
    | none => exact absurd (List.getLast?_eq_none_iff.mp hlst) hend_ne
    | some lst =>
      refine ⟨lst, rfl, ?_⟩
      exact padEndAux_last_ge (padEndFuel (padStart preds s) e)
        (padStart preds s) e le_rfl lst hlst

/-- C3 witness: the amended structure on `exEvents` and the window
`[0, 70000000]`. -/
theorem padPredictions_structure_witness :
    2 ≤ exEvents.length ∧
    ((∃ pre post, padPredictions exEvents 0 70000000 = pre ++ exEvents ++ post) ∧
     (∃ hd, (padPredictions exEvents 0 70000000).head? = some hd ∧
        hd.time ≤ 0) ∧
     (∃ lst, (padPredictions exEvents 0 70000000).getLast? = some lst ∧
        70000000 ≤ lst.time)) :=
  ⟨by decide, padPredictions_structure exEvents 0 70000000 (by decide)⟩

/-- C6: on `specEvents t0` and the window `[t0 - 5h, t0 + 12h]`, the padder
prepends exactly one synthetic low at `t0 - 6.2h` with level 0.1 and
appends exactly one synthetic high at `t0 + 12.4h` (= 6.2h after the low)
with level 3.2, and nothing else. -/
theorem padPredictions_spec_example (t0 : ℤ) :
    padPredictions (specEvents t0) (t0 - 18000000) (t0 + 43200000) =
      [{ type := .low, time := t0 - 22320000, level := 0.1 },
       { type := .high, time := t0, level := 3.2 },
       { type := .low, time := t0 + 22320000, level := 0.1 },
       { type := .high, time := t0 + 44640000, level := 3.2 }] := by
  have hfuel1 : padStartFuel (specEvents t0) (t0 - 18000000) = 1 := by
    simp only [specEvents, padStartFuel, sub_sub_cancel]
    decide
  have hstart : padStart (specEvents t0) (t0 - 18000000) =
      { type := .low, time := t0 - 22320000, level := (0.1 : ℝ) } ::
        specEvents t0 := by
    unfold padStart
    rw [hfuel1]
    show padStartAux 1 ({ type := .high, time := t0, level := 3.2 } ::
      [{ type := .low, time := t0 + 22320000, level := 0.1 }]) _ = _
    rw [padStartAux]
    split
    · rw [padStartAux]
      rfl
    · rename_i hcond
      exfalso
      revert hcond
      dsimp only
      omega
  have hfuel2 : padEndFuel (padStart (specEvents t0) (t0 - 18000000))
      (t0 + 43200000) = 1 := by
    rw [hstart]
    simp only [padEndFuel, specEvents, List.getLast?_cons_cons,
      List.getLast?_singleton]
    have harith : t0 + 43200000 - (t0 + 22320000) = 20880000 := by ring
    rw [harith]
    decide
  unfold padPredictions
  rw [if_neg (by simp [specEvents])]
  unfold padEnd
  rw [hfuel2, hstart]
  rw [padEndAux_succ]
  simp only [specEvents, List.getLast?_cons_cons, List.getLast?_singleton]
  split
  · rw [padEndAux_zero]
    have harith2 : t0 + 22320000 + 22320000 = t0 + 44640000 := by ring
    show _ ++ [({ type := .high, time := t0 + 22320000 + 22320000, level := (3.2 : ℝ) } : TidalEvent)] = _
    rw [harith2]
    rfl
  · rename_i hcond
    exfalso
    revert hcond
    omega

/-! ### Interpolator lemmas -/

theorem STEP_toNat : (180000 : ℤ).toNat = 180000 := rfl

theorem interpPoints_nil (s e : ℤ) : interpPoints [] s e = [] := rfl

theorem interpPoints_single (a : TidalEvent) (s e : ℤ) :
    interpPoints [a] s e = [] := rfl

theorem interpPoints_cons (a b : TidalEvent) (rest : List TidalEvent)
    (s e : ℤ) :
    interpPoints (a :: b :: rest) s e =
      pairSamples a b s e ++ interpPoints (b :: rest) s e := rfl

/-- The inner `for` loop runs only while `t < tB`. -/
theorem numSteps_lt (tA tB : ℤ) (k : ℕ) (hk : k < numSteps tA tB) :
    tA + (k : ℤ) * STEP_MS < tB := by
  unfold numSteps at hk
  split at hk
  · simp only [STEP_MS, STEP_toNat] at hk ⊢
    omega
  · omega

/-- Every emitted sample of a pair lies in `[tA, tB)` on the step grid and
inside the window. -/
theorem pairSamples_mem {a b : TidalEvent} {s e : ℤ} {p : InterpPoint}
    (hp : p ∈ pairSamples a b s e) :
    a.time ≤ p.time ∧ p.time < b.time ∧ s ≤ p.time ∧ p.time ≤ e := by
  unfold pairSamples at hp
  obtain ⟨k, hk, hf⟩ := List.mem_filterMap.mp hp
  rw [List.mem_range] at hk
  dsimp only at hf
  split at hf
  · exact absurd hf (by simp)
  · rename_i hcond
    push_neg at hcond
    rw [Option.some_inj] at hf
    subst hf
    refine ⟨?_, numSteps_lt a.time b.time k hk, hcond.1, hcond.2⟩
    simp only [STEP_MS]
    omega

/-- Within one pair, sample times are strictly increasing. -/
theorem pairSamples_pairwise (a b : TidalEvent) (s e : ℤ) :
    (pairSamples a b s e).Pairwise (fun p q => p.time < q.time) := by
  unfold pairSamples
  refine List.Pairwise.filterMap _ ?_ (List.pairwise_lt_range _)
  intro k k' hkk p hp q hq
  dsimp only at hp hq
  split at hp
  · exact absurd hp (by simp)
  · split at hq
    · exact absurd hq (by simp)
    · rw [Option.mem_def, Option.some_inj] at hp hq
      subst hp
      subst hq
      simp only [STEP_MS]
      omega

/-- Under an ascending chain, a list's head time bounds its last time. -/
theorem chain_le_getLast (l : List TidalEvent) :
    ∀ (a : TidalEvent) (lst : TidalEvent),
      List.Chain' (fun x y => x.time ≤ y.time) (a :: l) →
      (a :: l).getLast? = some lst → a.time ≤ lst.time := by
  induction l with
  | nil =>
    intro a lst _ h
    simp at h
    rw [← h]
  | cons b rest ih =>
    intro a lst hch hl
    have h1 : a.time ≤ b.time := (List.chain'_cons.mp hch).1
    have h2 : b.time ≤ lst.time := by
      refine ih b lst (List.chain'_cons.mp hch).2 ?_
      rw [← hl]
      exact (List.getLast?_cons_cons ..).symm
    omega

/-- Samples never precede the section's first event. -/
theorem interpPoints_time_lb (l : List TidalEvent) :
    ∀ (a : TidalEvent) (s e : ℤ),
      List.Chain' (fun x y => x.time ≤ y.time) (a :: l) →
      ∀ p ∈ interpPoints (a :: l) s e, a.time ≤ p.time := by
  induction l with
  | nil =>
    intro a s e _ p hp
    rw [interpPoints_single] at hp
    simp at hp
  | cons b rest ih =>
    intro a s e hchain p hp
    rw [interpPoints_cons] at hp
    rcases List.mem_append.mp hp with h | h
    · exact (pairSamples_mem h).1
    · have hab : a.time ≤ b.time := (List.chain'_cons.mp hchain).1
      exact le_trans hab (ih b s e (List.chain'_cons.mp hchain).2 p h)

/-- Samples stay strictly before the last padded event. -/
theorem interpPoints_time_ub (l : List TidalEvent) :
    ∀ (s e : ℤ) (lst : TidalEvent), l.getLast? = some lst →
      List.Chain' (fun x y => x.time ≤ y.time) l →
      ∀ p ∈ interpPoints l s e, p.time < lst.time := by
  induction l with
  | nil => intro s e lst h; simp at h
  | cons a l ih =>
    cases l with
    | nil =>
      intro s e lst _ _ p hp
      rw [interpPoints_single] at hp
      simp at hp
    | cons b rest =>
      intro s e lst hgl hch p hp
      rw [interpPoints_cons] at hp
      have hgl2 : (b :: rest).getLast? = some lst := by
        rw [← hgl]
        exact (List.getLast?_cons_cons ..).symm
      rcases List.mem_append.mp hp with h | h
      · have h1 : p.time < b.time := (pairSamples_mem h).2.1
        have h2 : b.time ≤ lst.time :=
          chain_le_getLast rest b lst (List.chain'_cons.mp hch).2 hgl2
        omega
      · exact ih s e lst hgl2 (List.chain'_cons.mp hch).2 p h

/-- Concatenating the per-pair sample runs keeps times strictly
increasing. -/
theorem interpPoints_pairwise (l : List TidalEvent) :
    ∀ (s e : ℤ), List.Chain' (fun x y => x.time ≤ y.time) l →
      (interpPoints l s e).Pairwise (fun p q => p.time < q.time) := by
  induction l with
  | nil => intro s e _; rw [interpPoints_nil]; exact List.Pairwise.nil
  | cons a l ih =>
    cases l with
    | nil => intro s e _; rw [interpPoints_single]; exact List.Pairwise.nil
    | cons b rest =>
      intro s e hch
      rw [interpPoints_cons, List.pairwise_append]
      refine ⟨pairSamples_pairwise a b s e,
        ih s e (List.chain'_cons.mp hch).2, ?_⟩
      intro p hp q hq
      have h1 : p.time < b.time := (pairSamples_mem hp).2.1
      have h2 : b.time ≤ q.time :=
        interpPoints_time_lb rest b s e (List.chain'_cons.mp hch).2 q hq
      omega

/-- Padding preserves ascending order at the front. -/
theorem padStartAux_chain (n : ℕ) :
    ∀ (l : List TidalEvent) (s : ℤ),
      List.Chain' (fun x y => x.time ≤ y.time) l →
      List.Chain' (fun x y => x.time ≤ y.time) (padStartAux n l s) := by
  induction n with
  | zero => exact fun l s h => h
  | succ n ih =>
    intro l s h
    cases l with
    | nil => exact h
    | cons first rest =>
      rw [padStartAux]
      split
      · refine ih _ s (List.chain'_cons.mpr ⟨?_, h⟩)
        show first.time - HALF_CYCLE ≤ first.time
        simp [HALF_CYCLE]
      · exact h

/-- Padding preserves ascending order at the back. -/
theorem padEndAux_chain (n : ℕ) :
    ∀ (l : List TidalEvent) (stop : ℤ),
      List.Chain' (fun x y => x.time ≤ y.time) l →
      List.Chain' (fun x y => x.time ≤ y.time) (padEndAux n l stop) := by
  induction n with
  | zero => exact fun l stop h => h
  | succ n ih =>
    intro l stop h
    rw [padEndAux_succ]
    cases hgl : l.getLast? with
    | none => exact h
    | some last =>
      dsimp only
      split
      · refine ih _ stop (List.chain'_append.mpr ⟨h, List.chain'_singleton _, ?_⟩)
        intro x hx y hy
        rw [hgl] at hx
        simp at hx hy
        subst hx
        subst hy
        show last.time ≤ last.time + HALF_CYCLE
        simp [HALF_CYCLE]
      · exact h

/-- The padder preserves ascending order. -/
theorem padPredictions_chain (preds : List TidalEvent) (s e : ℤ)
    (h : List.Chain' (fun x y => x.time ≤ y.time) preds) :
    List.Chain' (fun x y => x.time ≤ y.time) (padPredictions preds s e) := by
  unfold padPredictions
  split
  · exact h
  · exact padEndAux_chain _ _ e (padStartAux_chain _ _ s h)

/-- C7: for every time-ascending input list and every window with
`start < end`, the interpolator's output times are strictly increasing at
every adjacent position, including across pair boundaries and at the final
appended boundary point. -/
theorem interpolate_times_strict (preds : List TidalEvent) (s e : ℤ)
    (hasc : List.Chain' (fun x y => x.time ≤ y.time) preds) (_hwin : s < e) :
    List.Chain' (fun p q => p.time < q.time)
      (interpolatePredictions preds s e) := by
  unfold interpolatePredictions
  dsimp only
  split
  · exact List.chain'_nil
  · have hchain := padPredictions_chain preds s e hasc
    apply List.Pairwise.chain'
    rw [List.pairwise_append]
    refine ⟨interpPoints_pairwise _ s e hchain, ?_, ?_⟩
    · unfold finalPoint
      cases (padPredictions preds s e).getLast? with
      | none => exact List.Pairwise.nil
      | some lst =>
        dsimp only
        split
        · exact List.pairwise_singleton _ _
        · exact List.Pairwise.nil
    · intro p hp q hq
      unfold finalPoint at hq
      cases hgl : (padPredictions preds s e).getLast? with
      | none =>
        rw [hgl] at hq
        simp at hq
      | some lst =>
        rw [hgl] at hq
        dsimp only at hq
        split at hq
        · simp at hq
          rw [hq]
          exact interpPoints_time_ub _ s e lst hgl hchain p hp
        · simp at hq

/-- C7 witness: two ascending events and the window `[0, 70000000]`. -/
theorem interpolate_times_strict_witness :
    List.Chain' (fun a b => a.time ≤ b.time) exEvents ∧ (0 : ℤ) < 70000000 ∧
    List.Chain' (fun p q => p.time < q.time)
      (interpolatePredictions exEvents 0 70000000) :=
  ⟨by simp [exEvents], by decide,
    interpolate_times_strict exEvents 0 70000000 (by simp [exEvents])
      (by decide)⟩

/-! ### Level bounds (claim C10) -/

/-- The cosine easing keeps every emitted level of a pair between the two
levels it connects. -/
theorem pairSamples_level_bound {a b : TidalEvent} {s e : ℤ}
    {p : InterpPoint} (hp : p ∈ pairSamples a b s e) :
    min a.level b.level ≤ p.level ∧ p.level ≤ max a.level b.level := by
  unfold pairSamples at hp
  obtain ⟨k, _, hf⟩ := List.mem_filterMap.mp hp
  dsimp only at hf
  split at hf
  · exact absurd hf (by simp)
  · rw [Option.some_inj] at hf
    subst hf
    dsimp only
    set θ := ((a.time + (k : ℤ) * STEP_MS - a.time : ℤ) : ℝ) /
      ((b.time - a.time : ℤ) : ℝ) * Real.pi with hθ
    have hcos1 : -1 ≤ Real.cos θ := Real.neg_one_le_cos θ
    have hcos2 : Real.cos θ ≤ 1 := Real.cos_le_one θ
    have hc0 : 0 ≤ (1 - Real.cos θ) / 2 := by linarith
    have hc1 : (1 - Real.cos θ) / 2 ≤ 1 := by linarith
    constructor
    · rcases le_total a.level b.level with h | h
      · rw [min_eq_left h]
        nlinarith
      · rw [min_eq_right h]
        nlinarith
    · rcases le_total a.level b.level with h | h
      · rw [max_eq_right h]
        nlinarith
      · rw [max_eq_left h]
        nlinarith

/-- Every sample produced by the pair loop is bracketed by some adjacent
pair of the padded list. -/
theorem interpPoints_pair_bound (l : List TidalEvent) :
    ∀ (s e : ℤ) (p : InterpPoint), p ∈ interpPoints l s e →
      ∃ a b l1 l2, l = l1 ++ a :: b :: l2 ∧
        a.time ≤ p.time ∧ p.time < b.time ∧
        min a.level b.level ≤ p.level ∧ p.level ≤ max a.level b.level := by
  induction l with
  | nil =>
    intro s e p hp
    rw [interpPoints_nil] at hp
    simp at hp
  | cons a l ih =>
    cases l with
    | nil =>
      intro s e p hp
      rw [interpPoints_single] at hp
      simp at hp
    | cons b rest =>
      intro s e p hp
      rw [interpPoints_cons] at hp
      rcases List.mem_append.mp hp with h | h
      · obtain ⟨h1, h2⟩ := pairSamples_level_bound h
        obtain ⟨ht1, ht2, _, _⟩ := pairSamples_mem h
        exact ⟨a, b, [], rest, rfl, ht1, ht2, h1, h2⟩
      · obtain ⟨a', b', l1, l2, heq, ht1, ht2, h1, h2⟩ := ih s e p h
        exact ⟨a', b', a :: l1, l2, by rw [List.cons_append, heq],
          ht1, ht2, h1, h2⟩

/-- A list of length at least 2 ends in two adjacent elements. -/
theorem exists_last_two (l : List TidalEvent) :
    ∀ lst, 2 ≤ l.length → l.getLast? = some lst →
      ∃ l1 a, l = l1 ++ [a, lst] := by
  induction l with
  | nil => intro lst h; simp at h
  | cons x l ih =>
    intro lst hlen hgl
    cases l with
    | nil => simp at hlen
    | cons y rest =>
      cases rest with
      | nil =>
        have : y = lst := by
          rw [List.getLast?_cons_cons, List.getLast?_singleton] at hgl
          exact Option.some_inj.mp hgl
        exact ⟨[], x, by rw [this]; rfl⟩
      | cons z rest2 =>
        obtain ⟨l1, a, hla⟩ := ih lst (by simp) (by
          rw [← hgl]
          exact (List.getLast?_cons_cons ..).symm)
        exact ⟨x :: l1, a, by rw [List.cons_append, ← hla]⟩

/-- C10: every level the interpolator emits lies between the levels of its
bracketing pair of padded events: the exhibited adjacent pair `(a, b)` of
the padded series is the one the sample was generated from — the sample's
time lies in `[a.time, b.time)` for loop samples, and the final appended
point is `b`'s own time and level — and the level is within
`[min(lA, lB), max(lA, lB)]`, so the curve never overshoots the extrema it
connects. -/
theorem interpolate_levels_bounded (preds : List TidalEvent) (s e : ℤ)
    (p : InterpPoint) (hp : p ∈ interpolatePredictions preds s e) :
    ∃ a b l1 l2, padPredictions preds s e = l1 ++ a :: b :: l2 ∧
      ((a.time ≤ p.time ∧ p.time < b.time) ∨
        (p.time = b.time ∧ p.level = b.level)) ∧
      min a.level b.level ≤ p.level ∧ p.level ≤ max a.level b.level := by
  unfold interpolatePredictions at hp
  dsimp only at hp
  split at hp
  · simp at hp
  · rename_i hlen
    rcases List.mem_append.mp hp with h | h
    · obtain ⟨a, b, l1, l2, heq, ht1, ht2, h1, h2⟩ :=
        interpPoints_pair_bound (padPredictions preds s e) s e p h
      exact ⟨a, b, l1, l2, heq, Or.inl ⟨ht1, ht2⟩, h1, h2⟩
    · unfold finalPoint at h
      cases hgl : (padPredictions preds s e).getLast? with
      | none =>
        rw [hgl] at h
        simp at h
      | some lst =>
        rw [hgl] at h
        dsimp only at h
        split at h
        · simp at h
          obtain ⟨l1, a, hla⟩ :=
            exists_last_two (padPredictions preds s e) lst (by omega) hgl
          refine ⟨a, lst, l1, [], by rw [hla],
            Or.inr ⟨by rw [h], by rw [h]⟩, ?_, ?_⟩
          · rw [h]
            exact min_le_right _ _
          · rw [h]
            exact le_max_right _ _
        · simp at h

/-- C10 witness: the final boundary point of the interpolation of
`wEvents` over `[0, 180000]`. -/
theorem interpolate_levels_bounded_witness :
    ({ time := 180000, level := (0 : ℝ) } : InterpPoint) ∈
      interpolatePredictions wEvents 0 180000 ∧
    ∃ a b l1 l2, padPredictions wEvents 0 180000 = l1 ++ a :: b :: l2 ∧
      ((a.time ≤ ({ time := 180000, level := (0 : ℝ) } : InterpPoint).time ∧
          ({ time := 180000, level := (0 : ℝ) } : InterpPoint).time <
            b.time) ∨
        (({ time := 180000, level := (0 : ℝ) } : InterpPoint).time =
            b.time ∧
          ({ time := 180000, level := (0 : ℝ) } : InterpPoint).level =
            b.level)) ∧
      min a.level b.level ≤
        ({ time := 180000, level := (0 : ℝ) } : InterpPoint).level ∧
      ({ time := 180000, level := (0 : ℝ) } : InterpPoint).level ≤
        max a.level b.level := by
  have hm : ({ time := 180000, level := (0 : ℝ) } : InterpPoint) ∈
      interpolatePredictions wEvents 0 180000 := by
    have h1 : interpolatePredictions wEvents 0 180000 =
        interpPoints (padPredictions wEvents 0 180000) 0 180000 ++
          finalPoint (padPredictions wEvents 0 180000) 0 180000 := by
      unfold interpolatePredictions
      dsimp only
      rw [if_neg (by decide)]
    rw [h1]
    refine List.mem_append_right _ ?_
    have h2 : finalPoint (padPredictions wEvents 0 180000) 0 180000 =
        [{ time := 180000, level := (0 : ℝ) }] := rfl
    rw [h2]
    exact List.mem_singleton.mpr rfl
  exact ⟨hm, interpolate_levels_bounded wEvents 0 180000 _ hm⟩

/-! ### Cache failure behavior (claim C4) -/

/-- C4 counterexample: after a build that produced fewer than 2 points
(here: a build with an empty prediction list) the cache is marked absent
with its key and build time intact; the very next `drawTideCurve` call —
same computed key, zero elapsed time, so neither a key change nor an
expired TTL — already re-attempts the rebuild, because an absent canvas by
itself triggers the rebuild branch on every frame. -/
theorem drawTideCurve_retry_counterexample :
    (renderStaticLayer cacheBuilt stEmpty 0).cachedCanvas = false ∧
    (renderStaticLayer cacheBuilt stEmpty 0).cacheKey =
      buildCacheKey 1000 800 1 0 2 (Int.ediv 0 60000) ∧
    ¬ CACHE_TTL < 0 - (renderStaticLayer cacheBuilt stEmpty 0).cacheTime ∧
    (drawTideCurve (renderStaticLayer cacheBuilt stEmpty 0) stTwo 0).2.1 =
      true := by
  refine ⟨rfl, rfl, by decide, ?_⟩
  unfold drawTideCurve
  rw [if_neg (show ¬ stTwo.predictions.length < 2 by decide)]
  dsimp only
  split
  · split <;> rfl
  · rename_i hcond
    exact absurd (Or.inl rfl) hcond

/-- C4 amended: when a cache build produces fewer than 2 usable points the
cache is marked absent (key and build time untouched) and a draw whose
resulting cache is absent draws nothing; however, while the cache is
absent, every draw call with at least 2 predictions re-attempts the
rebuild — absence alone triggers it, independent of the key comparison
and the 30-second TTL. -/
theorem cache_failure_spec :
    (∀ (c : CurveCache) (st : VisState) (now : ℤ),
      (interpolatePredictions st.predictions (now - PAST_HOURS_MS)
        (now + FUTURE_HOURS_MS)).length < 2 →
      (renderStaticLayer c st now).cachedCanvas = false ∧
      (renderStaticLayer c st now).cachedPoints = c.cachedPoints ∧
      (renderStaticLayer c st now).cacheTime = c.cacheTime) ∧
    (∀ (c : CurveCache) (st : VisState) (now : ℤ),
      2 ≤ st.predictions.length → c.cachedCanvas = false →
      (drawTideCurve c st now).2.1 = true) ∧
    (∀ (c : CurveCache) (st : VisState) (now : ℤ),
      (drawTideCurve c st now).1.cachedCanvas = false →
      (drawTideCurve c st now).2.2 = false) := by
  refine ⟨?_, ?_, ?_⟩
  · intro c st now hlen
    unfold renderStaticLayer
    dsimp only
    cases hi : interpolatePredictions st.predictions (now - PAST_HOURS_MS)
        (now + FUTURE_HOURS_MS) with
    | nil => exact ⟨rfl, rfl, rfl⟩
    | cons p ps =>
      cases ps with
      | nil => exact ⟨rfl, rfl, rfl⟩
      | cons q ps2 =>
        rw [hi] at hlen
        simp at hlen
        omega
  · intro c st now h2 hc
    unfold drawTideCurve
    rw [if_neg (by omega), if_pos (Or.inl hc)]
    dsimp only
    split <;> rfl
  · intro c st now
    unfold drawTideCurve
    dsimp only
    split
    · intro
      rfl
    · split
      · split
        · intro
          rfl
        · rename_i hP
          intro hfalse
          exact absurd (Or.inl hfalse) hP
      · split
        · intro
          rfl
        · rename_i hP
          intro hfalse
          exact absurd (Or.inl hfalse) hP

/-- C4 witness: the three parts at concrete caches, snapshots and time 0. -/
theorem cache_failure_spec_witness :
    ((interpolatePredictions stEmpty.predictions (0 - PAST_HOURS_MS)
        (0 + FUTURE_HOURS_MS)).length < 2 ∧
      (renderStaticLayer cacheBuilt stEmpty 0).cachedCanvas = false ∧
      (renderStaticLayer cacheBuilt stEmpty 0).cachedPoints =
        cacheBuilt.cachedPoints ∧
      (renderStaticLayer cacheBuilt stEmpty 0).cacheTime =
        cacheBuilt.cacheTime) ∧
    (2 ≤ stTwo.predictions.length ∧ cacheAbsent.cachedCanvas = false ∧
      (drawTideCurve cacheAbsent stTwo 0).2.1 = true) ∧
    ((drawTideCurve cacheAbsent stEmpty 0).1.cachedCanvas = false ∧
      (drawTideCurve cacheAbsent stEmpty 0).2.2 = false) :=
  ⟨⟨by decide,
    cache_failure_spec.1 cacheBuilt stEmpty 0 (by decide)⟩,
   ⟨by decide, rfl,
    cache_failure_spec.2.1 cacheAbsent stTwo 0 (by decide) rfl⟩,
   ⟨rfl, cache_failure_spec.2.2 cacheAbsent stEmpty 0 rfl⟩⟩

end ThamesTides
